import Mathlib

/-!
# nsUXThemeData: the cache of native theme handles

A shallow embedding of `widget/windows/nsUXThemeData.cpp`.

The C++ class `nsUXThemeData` has only static members: a table `sThemes` of
lazily opened theme handles, one per control class, and two booleans about
the high-contrast setting.  The module talks to the operating system through
three calls (`OpenThemeData`, `CloseThemeData`, `SystemParametersInfo`).
Here the operating system is an oracle (`Env`) whose answers may depend on
everything that was called before, and every call that is made is appended
to a history (`calls`), so that "is called exactly once" is a statement about
that history.
-/

/-- An opaque operating-system handle (`HANDLE`); the null handle is `0`. -/
abbrev HANDLE := Nat

/-- A window handle (`HWND`); the null window is `0`. -/
abbrev HWND := Nat

/-- The Windows `BOOL`: an integer, false exactly when it is `0`. -/
abbrev BOOL := Int

/-- The Windows `DWORD`, read here as a natural number. -/
abbrev DWORD := Nat

/-- The C++ `nullptr`, for both handle types. -/
def nullptr : Nat := 0

/-- Windows SDK constant (`winuser.h`): the bit of `HIGHCONTRAST::dwFlags`
that says the high-contrast feature is on. -/
def HCF_HIGHCONTRASTON : DWORD := 0x00000001

/-- Modelled from the spec: the enumeration `nsUXThemeClass` is declared in
`nsUXThemeData.h`, which is not among the sources; its values are the
seventeen control classes the specification lists, in that order, and they
are exactly the `case` labels of `GetClassName`. -/
inductive nsUXThemeClass
  | eUXButton
  | eUXEdit
  | eUXRebar
  | eUXMediaRebar
  | eUXCommunicationsRebar
  | eUXBrowserTabBarRebar
  | eUXToolbar
  | eUXMediaToolbar
  | eUXCommunicationsToolbar
  | eUXProgress
  | eUXTab
  | eUXTrackbar
  | eUXSpin
  | eUXCombobox
  | eUXHeader
  | eUXListview
  | eUXMenu
  deriving DecidableEq, Repr, Fintype

/-- Modelled from the spec: `eUXNumClasses`, the size of the table `sThemes`
(declared in the missing `nsUXThemeData.h`); the specification lists
seventeen classes. -/
def eUXNumClasses : Nat := 17

namespace nsUXThemeClass

/-- The integer value of an enumerator (declaration order, from zero). -/
def toNat : nsUXThemeClass → Nat
  | eUXButton => 0
  | eUXEdit => 1
  | eUXRebar => 2
  | eUXMediaRebar => 3
  | eUXCommunicationsRebar => 4
  | eUXBrowserTabBarRebar => 5
  | eUXToolbar => 6
  | eUXMediaToolbar => 7
  | eUXCommunicationsToolbar => 8
  | eUXProgress => 9
  | eUXTab => 10
  | eUXTrackbar => 11
  | eUXSpin => 12
  | eUXCombobox => 13
  | eUXHeader => 14
  | eUXListview => 15
  | eUXMenu => 16

/-- The enumerator with a given integer value, if there is one. -/
def ofNat? : Nat → Option nsUXThemeClass
  | 0 => some eUXButton
  | 1 => some eUXEdit
  | 2 => some eUXRebar
  | 3 => some eUXMediaRebar
  | 4 => some eUXCommunicationsRebar
  | 5 => some eUXBrowserTabBarRebar
  | 6 => some eUXToolbar
  | 7 => some eUXMediaToolbar
  | 8 => some eUXCommunicationsToolbar
  | 9 => some eUXProgress
  | 10 => some eUXTab
  | 11 => some eUXTrackbar
  | 12 => some eUXSpin
  | 13 => some eUXCombobox
  | 14 => some eUXHeader
  | 15 => some eUXListview
  | 16 => some eUXMenu
  | _ => none

/-- The slots of `sThemes` in index order: the order in which the range-based
`for` of `Invalidate` visits them. -/
def all : List nsUXThemeClass :=
  [eUXButton, eUXEdit, eUXRebar, eUXMediaRebar, eUXCommunicationsRebar,
   eUXBrowserTabBarRebar, eUXToolbar, eUXMediaToolbar, eUXCommunicationsToolbar,
   eUXProgress, eUXTab, eUXTrackbar, eUXSpin, eUXCombobox, eUXHeader,
   eUXListview, eUXMenu]

end nsUXThemeClass

/-- One call made to the operating system, with what it answered. -/
inductive ApiCall
  /-- The call `OpenThemeData(wnd, classList)` returned `result`. -/
  | OpenThemeData (wnd : HWND) (classList : String) (result : HANDLE)
  /-- The call `CloseThemeData(h)` was made. -/
  | CloseThemeData (h : HANDLE)
  /-- The call `SystemParametersInfo(SPI_GETHIGHCONTRAST, 0, &info, 0)` returned `ret`
  and left `dwFlags` in `info.dwFlags`. -/
  | SystemParametersInfo (ret : BOOL) (dwFlags : DWORD)
  deriving DecidableEq, Repr

/-- The operating system as an oracle: what each query answers, given the
history of all calls made so far. -/
structure Env where
  /-- The handle `OpenThemeData(wnd, classList)` returns (possibly null). -/
  OpenThemeData : List ApiCall → HWND → String → HANDLE
  /-- The return value of `SystemParametersInfo(SPI_GETHIGHCONTRAST, ...)` and the
  `dwFlags` it leaves in the `HIGHCONTRAST` structure. -/
  SystemParametersInfo : List ApiCall → BOOL × DWORD

namespace nsUXThemeData

/-- The class `nsUXThemeData::ThemeHandle`: a `Maybe<HANDLE>`. -/
structure ThemeHandle where
  mHandle : Option HANDLE
  deriving DecidableEq, Repr

namespace ThemeHandle

/-- `ThemeHandle::OpenOnce`: returns at once when a handle is held, otherwise
stores what `OpenThemeData` answers.  The second component is the call history. -/
def OpenOnce (env : Env) (self : ThemeHandle) (calls : List ApiCall)
    (aWindow : HWND) (aClassList : String) : ThemeHandle × List ApiCall :=
  if self.mHandle.isSome then
    (self, calls)
  else
    let h := env.OpenThemeData calls aWindow aClassList
    ({ mHandle := some h }, calls ++ [ApiCall.OpenThemeData aWindow aClassList h])

/-- `ThemeHandle::Close`: nothing when empty; otherwise `mHandle.extract()` takes
the handle out, leaving `Nothing`, and `CloseThemeData` is called on it when it
is not null. -/
def Close (self : ThemeHandle) (calls : List ApiCall) : ThemeHandle × List ApiCall :=
  match self.mHandle with
  | none => (self, calls)
  | some rawHandle =>
    if rawHandle ≠ nullptr then
      ({ mHandle := none }, calls ++ [ApiCall.CloseThemeData rawHandle])
    else
      ({ mHandle := none }, calls)

/-- `ThemeHandle::operator HANDLE`: `mHandle.valueOr(nullptr)`.  Written like
the other member functions, returning the slot and the call history next to
the result. -/
def operator_HANDLE (self : ThemeHandle) (calls : List ApiCall) :
    HANDLE × ThemeHandle × List ApiCall :=
  (self.mHandle.getD nullptr, self, calls)

end ThemeHandle

end nsUXThemeData

/-- The static members of `nsUXThemeData`, together with the history of the
calls made to the operating system. -/
structure nsUXThemeData where
  /-- `sThemes[eUXNumClasses]`, indexed by control class. -/
  sThemes : nsUXThemeClass → nsUXThemeData.ThemeHandle
  sIsDefaultWindowsTheme : Bool
  sIsHighContrastOn : Bool
  /-- Every operating-system call made so far, oldest first. -/
  calls : List ApiCall

namespace nsUXThemeData

/-- The state at process start: every `Maybe` is `Nothing`, both flags are
`false` (their initialisers), and nothing has been called. -/
def initial : nsUXThemeData :=
  { sThemes := fun _ => { mHandle := none }
    sIsDefaultWindowsTheme := false
    sIsHighContrastOn := false
    calls := [] }

/-- `nsUXThemeData::GetClassName` on the values of the enumeration. -/
def GetClassName : nsUXThemeClass → String
  | .eUXButton => "Button"
  | .eUXEdit => "Edit"
  | .eUXRebar => "Rebar"
  | .eUXMediaRebar => "Media::Rebar"
  | .eUXCommunicationsRebar => "Communications::Rebar"
  | .eUXBrowserTabBarRebar => "BrowserTabBar::Rebar"
  | .eUXToolbar => "Toolbar"
  | .eUXMediaToolbar => "Media::Toolbar"
  | .eUXCommunicationsToolbar => "Communications::Toolbar"
  | .eUXProgress => "Progress"
  | .eUXTab => "Tab"
  | .eUXTrackbar => "Trackbar"
  | .eUXSpin => "Spin"
  | .eUXCombobox => "Combobox"
  | .eUXHeader => "Header"
  | .eUXListview => "Listview"
  | .eUXMenu => "Menu"

/-- `nsUXThemeData::GetClassName` on an arbitrary integer passed as the class:
the `switch` with its `default` branch, which returns the empty string. -/
def GetClassNameRaw (cls : Nat) : String :=
  match nsUXThemeClass.ofNat? cls with
  | some c => GetClassName c
  | none => ""

/-- One iteration of the loop of `Invalidate`: `theme.Close()` on slot `cls`. -/
def closeSlot (s : nsUXThemeData) (cls : nsUXThemeClass) : nsUXThemeData :=
  let r := (s.sThemes cls).Close s.calls
  { s with sThemes := Function.update s.sThemes cls r.1, calls := r.2 }

/-- `nsUXThemeData::Invalidate`: closes every slot, in index order. -/
def Invalidate (s : nsUXThemeData) : nsUXThemeData :=
  nsUXThemeClass.all.foldl closeSlot s

/-- `nsUXThemeData::GetTheme`: opens slot `cls` once under the null window and
the name `GetClassName(cls)`, then reads the slot. -/
def GetTheme (env : Env) (s : nsUXThemeData) (cls : nsUXThemeClass) :
    HANDLE × nsUXThemeData :=
  let r := (s.sThemes cls).OpenOnce env s.calls nullptr (GetClassName cls)
  let v := r.1.operator_HANDLE r.2
  (v.1, { s with sThemes := Function.update s.sThemes cls v.2.1, calls := v.2.2 })

/-- `nsUXThemeData::IsDefaultWindowTheme`. -/
def IsDefaultWindowTheme (s : nsUXThemeData) : Bool := s.sIsDefaultWindowsTheme

/-- `nsUXThemeData::IsHighContrastOn`. -/
def IsHighContrastOn (s : nsUXThemeData) : Bool := s.sIsHighContrastOn

/-- `nsUXThemeData::UpdateNativeThemeInfo`. -/
def UpdateNativeThemeInfo (env : Env) (s : nsUXThemeData) : nsUXThemeData :=
  let q := env.SystemParametersInfo s.calls
  let calls := s.calls ++ [ApiCall.SystemParametersInfo q.1 q.2]
  let sIsHighContrastOn : Bool :=
    if q.1 ≠ 0 then decide (q.2 &&& HCF_HIGHCONTRASTON ≠ 0) else false
  { s with
    sIsHighContrastOn := sIsHighContrastOn
    sIsDefaultWindowsTheme := !sIsHighContrastOn
    calls := calls }

/-- A call into the module. -/
inductive Op
  | GetTheme (cls : nsUXThemeClass)
  | Invalidate
  | UpdateNativeThemeInfo
  deriving DecidableEq, Repr

/-- The state after one call. -/
def step (env : Env) (s : nsUXThemeData) : Op → nsUXThemeData
  | .GetTheme cls => (GetTheme env s cls).2
  | .Invalidate => Invalidate s
  | .UpdateNativeThemeInfo => UpdateNativeThemeInfo env s

/-- The state after a sequence of calls, made in order. -/
def run (env : Env) (s : nsUXThemeData) (ops : List Op) : nsUXThemeData :=
  ops.foldl (step env) s

/-- How many times `OpenThemeData` was called under the class name of `cls`. -/
def opensFor (cls : nsUXThemeClass) (calls : List ApiCall) : Nat :=
  calls.countP fun e =>
    match e with
    | .OpenThemeData _ name _ => name == GetClassName cls
    | _ => false

/-- How many calls of `OpenThemeData` returned the handle `h`. -/
def opensReturning (h : HANDLE) (calls : List ApiCall) : Nat :=
  calls.countP fun e =>
    match e with
    | .OpenThemeData _ _ r => r == h
    | _ => false

/-- How many times `CloseThemeData` was called on the handle `h`. -/
def closesOf (h : HANDLE) (calls : List ApiCall) : Nat :=
  calls.count (ApiCall.CloseThemeData h)

/-- How many slots of the table hold the handle `h`. -/
def heldBy (h : HANDLE) (s : nsUXThemeData) : Nat :=
  nsUXThemeClass.all.countP fun c => (s.sThemes c).mHandle == some h

/-! ## Definitions used to state the properties -/

/-- The calls `theme.Close()` makes on a slot. -/
def closeCalls (t : ThemeHandle) : List ApiCall :=
  match t.mHandle with
  | some h => if h ≠ nullptr then [ApiCall.CloseThemeData h] else []
  | none => []

/-- An oracle whose answer to `OpenThemeData` is the number of calls made so
far plus `k`, and whose high-contrast query succeeds with flags `f`. -/
def countingEnv (k : HANDLE) (f : DWORD) : Env :=
  { OpenThemeData := fun calls _ _ => k + calls.length
    SystemParametersInfo := fun _ => (1, f) }

/-- An oracle whose high-contrast query answers `ret` and `dwFlags`. -/
def queryEnv (ret : BOOL) (dwFlags : DWORD) : Env :=
  { OpenThemeData := fun _ _ _ => nullptr
    SystemParametersInfo := fun _ => (ret, dwFlags) }

/-- A state in which both flags are set, to see that they are overwritten. -/
def bothSet : nsUXThemeData :=
  { initial with sIsDefaultWindowsTheme := true, sIsHighContrastOn := true }

/-- The default-theme flag is the negation of the high-contrast flag. -/
def flagsAgree (s : nsUXThemeData) : Prop :=
  IsDefaultWindowTheme s = !IsHighContrastOn s

/-- No call of `CloseThemeData` outruns the opens: in every initial part of
the history, each handle was closed at most as often as it was returned. -/
def neverOverClosed (calls : List ApiCall) : Prop :=
  ∀ p h, p <+: calls → closesOf h p ≤ opensReturning h p

/-- The bookkeeping invariant: every non-null handle was returned by
`OpenThemeData` as often as it was closed or is now held by a slot; the null
handle was never closed; and no close outran the opens. -/
def balanced (s : nsUXThemeData) : Prop :=
  (∀ h, h ≠ nullptr → opensReturning h s.calls = closesOf h s.calls + heldBy h s) ∧
    closesOf nullptr s.calls = 0 ∧ neverOverClosed s.calls

end nsUXThemeData

/-! ## Lemmas on one slot -/

namespace nsUXThemeData

theorem ThemeHandle.OpenOnce_of_some (env : Env) (self : ThemeHandle) (calls : List ApiCall)
    (w : HWND) (name : String) (h : HANDLE) (hs : self.mHandle = some h) :
    self.OpenOnce env calls w name = (self, calls) := by
  simp [ThemeHandle.OpenOnce, hs]

theorem ThemeHandle.OpenOnce_of_none (env : Env) (self : ThemeHandle) (calls : List ApiCall)
    (w : HWND) (name : String) (hs : self.mHandle = none) :
    self.OpenOnce env calls w name =
      ({ mHandle := some (env.OpenThemeData calls w name) },
        calls ++ [ApiCall.OpenThemeData w name (env.OpenThemeData calls w name)]) := by
  simp [ThemeHandle.OpenOnce, hs]

theorem ThemeHandle.Close_eq (self : ThemeHandle) (calls : List ApiCall) :
    self.Close calls = ({ mHandle := none }, calls ++ closeCalls self) := by
  cases self with
  | mk m =>
    cases m with
    | none => simp [ThemeHandle.Close, closeCalls]
    | some h => by_cases hh : h = nullptr <;> simp [ThemeHandle.Close, closeCalls, hh]

/-! ## Lemmas on the table -/

theorem GetTheme_of_some (env : Env) (s : nsUXThemeData) (c : nsUXThemeClass) (h : HANDLE)
    (hs : (s.sThemes c).mHandle = some h) : GetTheme env s c = (h, s) := by
  simp [GetTheme, ThemeHandle.OpenOnce_of_some env _ _ _ _ h hs, ThemeHandle.operator_HANDLE, hs]

theorem GetTheme_of_none (env : Env) (s : nsUXThemeData) (c : nsUXThemeClass)
    (hs : (s.sThemes c).mHandle = none) :
    GetTheme env s c =
      (env.OpenThemeData s.calls nullptr (GetClassName c),
        { s with
          sThemes := Function.update s.sThemes c
            { mHandle := some (env.OpenThemeData s.calls nullptr (GetClassName c)) }
          calls := s.calls ++ [ApiCall.OpenThemeData nullptr (GetClassName c)
            (env.OpenThemeData s.calls nullptr (GetClassName c))] }) := by
  simp [GetTheme, ThemeHandle.OpenOnce_of_none env _ _ _ _ hs, ThemeHandle.operator_HANDLE]

theorem closeSlot_eq (s : nsUXThemeData) (c : nsUXThemeClass) :
    closeSlot s c =
      { s with
        sThemes := Function.update s.sThemes c { mHandle := none }
        calls := s.calls ++ closeCalls (s.sThemes c) } := by
  simp [closeSlot, ThemeHandle.Close_eq]

/-- Closing the slots of a list without repetition: the slots of the list
end up empty, the others are kept, and the calls made are those of each slot
in turn. -/
theorem foldl_closeSlot (l : List nsUXThemeClass) (hl : l.Nodup) (s : nsUXThemeData) :
    l.foldl closeSlot s =
      { s with
        sThemes := fun c => if c ∈ l then { mHandle := none } else s.sThemes c
        calls := s.calls ++ (l.map fun c => closeCalls (s.sThemes c)).flatten } := by
  induction l generalizing s with
  | nil => simp
  | cons a l ih =>
    have hnd := List.nodup_cons.mp hl
    rw [List.foldl_cons, ih hnd.2, closeSlot_eq]
    have hmap : (l.map fun c => closeCalls (Function.update s.sThemes a { mHandle := none } c)) =
        l.map fun c => closeCalls (s.sThemes c) := by
      apply List.map_congr_left
      intro c hc
      have hca : c ≠ a := fun e => hnd.1 (e ▸ hc)
      simp [Function.update_noteq hca]
    simp only [hmap, List.map_cons, List.flatten_cons, List.append_assoc]
    congr 1
    funext c
    by_cases hca : c = a
    · subst hca
      simp
    · simp [hca, Function.update_noteq hca]

theorem nodup_all : nsUXThemeClass.all.Nodup := by decide

theorem mem_all (c : nsUXThemeClass) : c ∈ nsUXThemeClass.all := by
  cases c <;> decide

/-- What `Invalidate` does, in closed form. -/
theorem Invalidate_eq (s : nsUXThemeData) :
    Invalidate s =
      { s with
        sThemes := fun _ => { mHandle := none }
        calls := s.calls ++ (nsUXThemeClass.all.map fun c => closeCalls (s.sThemes c)).flatten } := by
  rw [Invalidate, foldl_closeSlot _ nodup_all]
  simp [mem_all]

/-- Distinct control classes have distinct class names. -/
theorem GetClassName_inj (c d : nsUXThemeClass) (h : GetClassName c = GetClassName d) : c = d := by
  cases c <;> cases d <;> first | rfl | (exact absurd h (by decide))

theorem opensFor_append (c : nsUXThemeClass) (l₁ l₂ : List ApiCall) :
    opensFor c (l₁ ++ l₂) = opensFor c l₁ + opensFor c l₂ := by
  simp [opensFor, List.countP_append]

theorem opensFor_closeCalls (c : nsUXThemeClass) (t : ThemeHandle) :
    opensFor c (closeCalls t) = 0 := by
  cases t with
  | mk m =>
    cases m with
    | none => simp [opensFor, closeCalls]
    | some h => by_cases hh : h = nullptr <;> simp [opensFor, closeCalls, hh]

theorem opensFor_flatten_closeCalls (c : nsUXThemeClass) (f : nsUXThemeClass → ThemeHandle)
    (l : List nsUXThemeClass) :
    opensFor c (l.map fun d => closeCalls (f d)).flatten = 0 := by
  induction l with
  | nil => simp [opensFor]
  | cons a l ih =>
    simp only [List.map_cons, List.flatten_cons, opensFor_append, ih, opensFor_closeCalls]

theorem run_cons (env : Env) (s : nsUXThemeData) (op : Op) (ops : List Op) :
    run env s (op :: ops) = run env (step env s op) ops := rfl

theorem run_append (env : Env) (s : nsUXThemeData) (ops₁ ops₂ : List Op) :
    run env s (ops₁ ++ ops₂) = run env (run env s ops₁) ops₂ := by
  simp [run, List.foldl_append]

/-- The effect of `GetTheme(d)` on the slot of `c` and on the number of opens
made for `c`. -/
theorem GetTheme_opensFor (env : Env) (s : nsUXThemeData) (c d : nsUXThemeClass) :
    opensFor c (GetTheme env s d).2.calls =
        opensFor c s.calls + (if d = c ∧ (s.sThemes c).mHandle = none then 1 else 0) ∧
      (((GetTheme env s d).2.sThemes c).mHandle = none ↔
        (d ≠ c ∧ (s.sThemes c).mHandle = none)) := by
  cases hd : (s.sThemes d).mHandle with
  | some h =>
    rw [GetTheme_of_some env s d h hd]
    by_cases hdc : d = c
    · subst hdc
      simp [hd]
    · simp [hdc]
  | none =>
    rw [GetTheme_of_none env s d hd]
    by_cases hdc : d = c
    · subst hdc
      simp [hd, opensFor_append, opensFor]
    · have hn : GetClassName d ≠ GetClassName c := fun e => hdc (GetClassName_inj d c e)
      have hcd : c ≠ d := fun e => hdc e.symm
      simp [hdc, opensFor_append, opensFor, hn, Function.update_noteq hcd]

/-- Opens made for `c` by a sequence of `GetTheme` calls, from any state. -/
theorem run_GetTheme_opensFor (env : Env) (cs : List nsUXThemeClass) (s : nsUXThemeData)
    (c : nsUXThemeClass) :
    opensFor c (run env s (cs.map Op.GetTheme)).calls =
      opensFor c s.calls + (if c ∈ cs ∧ (s.sThemes c).mHandle = none then 1 else 0) := by
  induction cs generalizing s with
  | nil => simp [run]
  | cons d cs ih =>
    rw [List.map_cons, run_cons, ih]
    simp only [step]
    obtain ⟨h1, h2⟩ := GetTheme_opensFor env s c d
    rw [h1]
    by_cases hdc : d = c
    · subst hdc
      by_cases hn : (s.sThemes d).mHandle = none
      · have : ¬ ((GetTheme env s d).2.sThemes d).mHandle = none := by
          rw [h2]; simp
        simp [hn, this]
      · have : ¬ ((GetTheme env s d).2.sThemes d).mHandle = none := by
          rw [h2]; simp
        simp [hn, this]
    · have hcd : c ≠ d := fun e => hdc e.symm
      by_cases hn : (s.sThemes c).mHandle = none
      · have : ((GetTheme env s d).2.sThemes c).mHandle = none := h2.mpr ⟨hdc, hn⟩
        simp [hn, this, hdc, hcd]
      · have : ¬ ((GetTheme env s d).2.sThemes c).mHandle = none := by
          rw [h2]; simp [hn]
        simp [hn, this, hdc]

theorem Invalidate_opensFor (s : nsUXThemeData) (c : nsUXThemeClass) :
    opensFor c (Invalidate s).calls = opensFor c s.calls := by
  rw [Invalidate_eq]
  simp [opensFor_append, opensFor_flatten_closeCalls]

theorem Invalidate_sThemes (s : nsUXThemeData) (c : nsUXThemeClass) :
    ((Invalidate s).sThemes c).mHandle = none := by
  rw [Invalidate_eq]

/-- C1: for every control class `c`, whatever the operating system answers, a
sequence `cs` of `GetTheme` calls made after an `Invalidate` calls
`OpenThemeData` under the name of `c` exactly once when `c` occurs in `cs` and
never otherwise, and the following `Invalidate` adds no open.  As this holds
for every sequence, it holds for every initial part of one: the single open
happens at the first `GetTheme(c)`. -/
theorem C1_one_open_per_class_between_invalidates (env : Env) (s : nsUXThemeData)
    (cs : List nsUXThemeClass) (c : nsUXThemeClass) :
    opensFor c (run env (Invalidate s) (cs.map Op.GetTheme)).calls =
        opensFor c (Invalidate s).calls + (if c ∈ cs then 1 else 0) ∧
      opensFor c (Invalidate (run env (Invalidate s) (cs.map Op.GetTheme))).calls =
        opensFor c (Invalidate s).calls + (if c ∈ cs then 1 else 0) := by
  have h := run_GetTheme_opensFor env cs (Invalidate s) c
  simp only [Invalidate_sThemes, and_true] at h
  exact ⟨h, by rw [Invalidate_opensFor, h]⟩

/-- A call other than `Invalidate` keeps a handle that a slot holds. -/
theorem step_keeps_some (env : Env) (s : nsUXThemeData) (op : Op) (hop : op ≠ Op.Invalidate)
    (c : nsUXThemeClass) (h : HANDLE) (hs : (s.sThemes c).mHandle = some h) :
    ((step env s op).sThemes c).mHandle = some h := by
  cases op with
  | Invalidate => exact absurd rfl hop
  | UpdateNativeThemeInfo => simpa [step, UpdateNativeThemeInfo] using hs
  | GetTheme d =>
    simp only [step]
    cases hd : (s.sThemes d).mHandle with
    | some k => rw [GetTheme_of_some env s d k hd]; exact hs
    | none =>
      rw [GetTheme_of_none env s d hd]
      have hcd : c ≠ d := fun e => by rw [e, hd] at hs; exact Option.noConfusion hs
      simpa [Function.update_noteq hcd] using hs

theorem run_keeps_some (env : Env) (ops : List Op) (hops : Op.Invalidate ∉ ops)
    (s : nsUXThemeData) (c : nsUXThemeClass) (h : HANDLE)
    (hs : (s.sThemes c).mHandle = some h) :
    ((run env s ops).sThemes c).mHandle = some h := by
  induction ops generalizing s with
  | nil => exact hs
  | cons op ops ih =>
    rw [run_cons]
    have hne : op ≠ Op.Invalidate := fun e => hops (e ▸ List.mem_cons_self _ _)
    exact ih (fun hm => hops (List.mem_cons_of_mem _ hm)) _ (step_keeps_some env s op hne c h hs)

/-- C2: on a table whose slot `c` is empty, `GetTheme(c)` calls `OpenThemeData`
with the null window and the name `GetClassName(c)` and returns the handle H1
that call answered; a later `GetTheme(c)`, after any calls `ops` that include
no `Invalidate`, returns H1 again and changes nothing (so it makes no call);
after `Invalidate`, `GetTheme(c)` calls `OpenThemeData` again and returns what
this new call answers, which can differ from H1. -/
theorem C2_get_theme_scenario (env : Env) (s : nsUXThemeData) (c : nsUXThemeClass)
    (ops : List Op) (hs : (s.sThemes c).mHandle = none) (hops : Op.Invalidate ∉ ops) :
    let H1 := env.OpenThemeData s.calls nullptr (GetClassName c)
    let s1 := (GetTheme env s c).2
    let s2 := run env s1 ops
    let s3 := Invalidate (GetTheme env s2 c).2
    let H2 := env.OpenThemeData s3.calls nullptr (GetClassName c)
    (GetTheme env s c).1 = H1 ∧
      s1.calls = s.calls ++ [ApiCall.OpenThemeData nullptr (GetClassName c) H1] ∧
      GetTheme env s2 c = (H1, s2) ∧
      (GetTheme env s3 c).1 = H2 ∧
      (GetTheme env s3 c).2.calls =
        s3.calls ++ [ApiCall.OpenThemeData nullptr (GetClassName c) H2] ∧
      ∃ env0 : Env,
        (GetTheme env0 (Invalidate (GetTheme env0 initial c).2) c).1 ≠
          (GetTheme env0 initial c).1 := by
  intro H1 s1 s2 s3 H2
  have h1 : GetTheme env s c = (H1, s1) := by
    simp only [s1, H1, GetTheme_of_none env s c hs]
  have hs1 : (s1.sThemes c).mHandle = some H1 := by
    simp only [s1, GetTheme_of_none env s c hs, Function.update_same]
  have hs2 : (s2.sThemes c).mHandle = some H1 := run_keeps_some env ops hops s1 c H1 hs1
  have hs3 : (s3.sThemes c).mHandle = none := Invalidate_sThemes _ c
  refine ⟨by rw [h1], ?_, GetTheme_of_some env s2 c H1 hs2, ?_, ?_, ?_⟩
  · simp only [s1, H1, GetTheme_of_none env s c hs]
  · rw [GetTheme_of_none env s3 c hs3]
  · rw [GetTheme_of_none env s3 c hs3]
  · refine ⟨countingEnv 5 0, ?_⟩
    have hi : (initial.sThemes c).mHandle = none := rfl
    rw [GetTheme_of_none _ initial c hi, GetTheme_of_none _ _ c (Invalidate_sThemes _ c)]
    rw [Invalidate_eq]
    simp [countingEnv, initial]

/-- C2 at work: the button class on the initial table, with a `GetTheme(Tab)`
and an `UpdateNativeThemeInfo` between the two `GetTheme(Button)`. -/
theorem C2_get_theme_scenario_witness :
    (initial.sThemes nsUXThemeClass.eUXButton).mHandle = none ∧
      Op.Invalidate ∉ [Op.GetTheme nsUXThemeClass.eUXTab, Op.UpdateNativeThemeInfo] ∧
      (GetTheme (countingEnv 5 0) initial nsUXThemeClass.eUXButton).1 = 5 ∧
      GetTheme (countingEnv 5 0)
          (run (countingEnv 5 0) (GetTheme (countingEnv 5 0) initial nsUXThemeClass.eUXButton).2
            [Op.GetTheme nsUXThemeClass.eUXTab, Op.UpdateNativeThemeInfo])
          nsUXThemeClass.eUXButton =
        (5, run (countingEnv 5 0) (GetTheme (countingEnv 5 0) initial nsUXThemeClass.eUXButton).2
            [Op.GetTheme nsUXThemeClass.eUXTab, Op.UpdateNativeThemeInfo]) :=
  have h := C2_get_theme_scenario (countingEnv 5 0) initial nsUXThemeClass.eUXButton
    [Op.GetTheme nsUXThemeClass.eUXTab, Op.UpdateNativeThemeInfo] rfl (by decide)
  ⟨rfl, by decide, h.1, h.2.2.1⟩

/-- C3: from every state, after `Invalidate` each of the seventeen slots is
empty: its `mHandle` is `Nothing`, and reading it through `operator HANDLE`
gives the null handle while leaving the slot and the call history as they
were, so the read opens nothing. -/
theorem C3_invalidate_empties_every_slot (s : nsUXThemeData) (c : nsUXThemeClass) :
    Fintype.card nsUXThemeClass = eUXNumClasses ∧
      ((Invalidate s).sThemes c).mHandle = none ∧
      ((Invalidate s).sThemes c).operator_HANDLE (Invalidate s).calls =
        (nullptr, (Invalidate s).sThemes c, (Invalidate s).calls) := by
  refine ⟨by decide, Invalidate_sThemes s c, ?_⟩
  simp [ThemeHandle.operator_HANDLE, Invalidate_sThemes s c]

/-- C4, as stated, fails: on a slot that holds the null handle, `Close` makes
no call to `CloseThemeData`, so it is not true that `Close` on a slot holding
`h` always appends exactly the call `CloseThemeData(h)`. -/
theorem C4_close_null_handle_counterexample :
    (ThemeHandle.Close { mHandle := some nullptr } []).2 = [] ∧
      ¬ ∀ (h : HANDLE) (calls : List ApiCall),
          (ThemeHandle.Close { mHandle := some h } calls).2 =
            calls ++ [ApiCall.CloseThemeData h] := by
  refine ⟨by decide, fun hall => ?_⟩
  have h0 := hall nullptr []
  revert h0
  decide

/-- C4, amended: `Close` on a slot that holds a non-null handle `h` makes
exactly one call, `CloseThemeData(h)`, and leaves the slot empty; on a slot
that holds the null handle it makes no call and leaves the slot empty. -/
theorem C4_close_releases_non_null (h : HANDLE) (calls : List ApiCall) :
    (h ≠ nullptr →
        ThemeHandle.Close { mHandle := some h } calls =
          ({ mHandle := none }, calls ++ [ApiCall.CloseThemeData h])) ∧
      (h = nullptr →
        ThemeHandle.Close { mHandle := some h } calls = ({ mHandle := none }, calls)) := by
  constructor
  · intro hh
    simp [ThemeHandle.Close, hh]
  · intro hh
    simp [ThemeHandle.Close, hh]

/-- C4 amended, on the handles `7` and null. -/
theorem C4_close_releases_non_null_witness :
    ThemeHandle.Close { mHandle := some 7 } [ApiCall.OpenThemeData 0 "Button" 7] =
        ({ mHandle := none },
          [ApiCall.OpenThemeData 0 "Button" 7, ApiCall.CloseThemeData 7]) ∧
      ThemeHandle.Close { mHandle := some 0 } [ApiCall.OpenThemeData 0 "Button" 0] =
        ({ mHandle := none }, [ApiCall.OpenThemeData 0 "Button" 0]) :=
  ⟨(C4_close_releases_non_null 7 [ApiCall.OpenThemeData 0 "Button" 7]).1 (by decide),
    (C4_close_releases_non_null 0 [ApiCall.OpenThemeData 0 "Button" 0]).2 rfl⟩

/-- C9: `OpenOnce` on a slot that holds a handle makes no call and leaves the
slot as it is; on an empty slot it makes one call to `OpenThemeData` and
stores the answer, and a second `OpenOnce` right after it (with any window and
class name) changes nothing, so the two together open exactly once and the
slot holds the result of that one call. -/
theorem C9_open_once_idempotent (env : Env) (calls : List ApiCall) (w w2 : HWND)
    (name name2 : String) (h : HANDLE) :
    ThemeHandle.OpenOnce env { mHandle := some h } calls w name =
        ({ mHandle := some h }, calls) ∧
      ThemeHandle.OpenOnce env { mHandle := none } calls w name =
        ({ mHandle := some (env.OpenThemeData calls w name) },
          calls ++ [ApiCall.OpenThemeData w name (env.OpenThemeData calls w name)]) ∧
      ThemeHandle.OpenOnce env (ThemeHandle.OpenOnce env { mHandle := none } calls w name).1
          (ThemeHandle.OpenOnce env { mHandle := none } calls w name).2 w2 name2 =
        ThemeHandle.OpenOnce env { mHandle := none } calls w name := by
  refine ⟨by simp [ThemeHandle.OpenOnce], by simp [ThemeHandle.OpenOnce], ?_⟩
  simp [ThemeHandle.OpenOnce]

/-- `Invalidate` changes nothing on a table whose slots are all empty. -/
theorem Invalidate_of_all_empty (s : nsUXThemeData)
    (hs : ∀ c, (s.sThemes c).mHandle = none) : Invalidate s = s := by
  rw [Invalidate_eq]
  have hcalls : (nsUXThemeClass.all.map fun c => closeCalls (s.sThemes c)).flatten = [] := by
    simp [closeCalls, hs]
  have hth : (fun _ => ({ mHandle := none } : ThemeHandle)) = s.sThemes := by
    funext c
    have := hs c
    cases hc : s.sThemes c with
    | mk m => rw [hc] at this; simp at this; simp [this]
  rw [hcalls, hth, List.append_nil]

/-- C10: `Close` on an empty slot makes no call and leaves the slot empty;
hence `Invalidate` on a table whose slots are all empty makes no call and
leaves the whole state as it is, as does a second `Invalidate` in a row. -/
theorem C10_close_empty_is_noop (s : nsUXThemeData) (calls : List ApiCall)
    (hs : ∀ c, (s.sThemes c).mHandle = none) :
    ThemeHandle.Close { mHandle := none } calls = ({ mHandle := none }, calls) ∧
      Invalidate s = s ∧
      (∀ t : nsUXThemeData, Invalidate (Invalidate t) = Invalidate t) := by
  refine ⟨rfl, Invalidate_of_all_empty s hs, fun t => ?_⟩
  exact Invalidate_of_all_empty _ (Invalidate_sThemes t)

/-- C10 on the initial table, with one earlier call in the history. -/
theorem C10_close_empty_is_noop_witness :
    (∀ c, (initial.sThemes c).mHandle = none) ∧
      ThemeHandle.Close { mHandle := none } [ApiCall.CloseThemeData 3] =
        ({ mHandle := none }, [ApiCall.CloseThemeData 3]) ∧
      Invalidate initial = initial :=
  have h := C10_close_empty_is_noop initial [ApiCall.CloseThemeData 3] (fun _ => rfl)
  ⟨fun _ => rfl, h.1, h.2.1⟩

/-- C6: after `UpdateNativeThemeInfo`, from every prior state: when the query
succeeds and the `HCF_HIGHCONTRASTON` bit of `dwFlags` is set, high contrast
reads on and the default theme reads off; when the query succeeds and that bit
is clear (whatever the other bits), and when the query fails, high contrast
reads off and the default theme reads on. -/
theorem C6_update_native_theme_info_post (env : Env) (s : nsUXThemeData) :
    ((env.SystemParametersInfo s.calls).1 ≠ 0 →
        (env.SystemParametersInfo s.calls).2 &&& HCF_HIGHCONTRASTON ≠ 0 →
        IsHighContrastOn (UpdateNativeThemeInfo env s) = true ∧
          IsDefaultWindowTheme (UpdateNativeThemeInfo env s) = false) ∧
      ((env.SystemParametersInfo s.calls).1 ≠ 0 →
        (env.SystemParametersInfo s.calls).2 &&& HCF_HIGHCONTRASTON = 0 →
        IsHighContrastOn (UpdateNativeThemeInfo env s) = false ∧
          IsDefaultWindowTheme (UpdateNativeThemeInfo env s) = true) ∧
      ((env.SystemParametersInfo s.calls).1 = 0 →
        IsHighContrastOn (UpdateNativeThemeInfo env s) = false ∧
          IsDefaultWindowTheme (UpdateNativeThemeInfo env s) = true) := by
  refine ⟨fun h1 h2 => ?_, fun h1 h2 => ?_, fun h1 => ?_⟩
  · simp [IsHighContrastOn, IsDefaultWindowTheme, UpdateNativeThemeInfo, h1, h2]
  · simp [IsHighContrastOn, IsDefaultWindowTheme, UpdateNativeThemeInfo, h1, h2]
  · simp [IsHighContrastOn, IsDefaultWindowTheme, UpdateNativeThemeInfo, h1]

/-- C6 on three answers of the query: success with flags `0x21` (bit set),
success with flags `0x22` (bit clear, other bits set), and failure with
flags `1`. -/
theorem C6_update_native_theme_info_post_witness :
    (IsHighContrastOn (UpdateNativeThemeInfo (queryEnv 1 0x21) initial) = true ∧
        IsDefaultWindowTheme (UpdateNativeThemeInfo (queryEnv 1 0x21) initial) = false) ∧
      (IsHighContrastOn (UpdateNativeThemeInfo (queryEnv 1 0x22) bothSet) = false ∧
        IsDefaultWindowTheme (UpdateNativeThemeInfo (queryEnv 1 0x22) bothSet) = true) ∧
      (IsHighContrastOn (UpdateNativeThemeInfo (queryEnv 0 1) bothSet) = false ∧
        IsDefaultWindowTheme (UpdateNativeThemeInfo (queryEnv 0 1) bothSet) = true) :=
  ⟨(C6_update_native_theme_info_post (queryEnv 1 0x21) initial).1 (by decide) (by decide),
    (C6_update_native_theme_info_post (queryEnv 1 0x22) bothSet).2.1 (by decide) (by decide),
    (C6_update_native_theme_info_post (queryEnv 0 1) bothSet).2.2 (by decide)⟩

theorem step_flags (env : Env) (s : nsUXThemeData) (op : Op)
    (hop : op ≠ Op.UpdateNativeThemeInfo) :
    (step env s op).sIsDefaultWindowsTheme = s.sIsDefaultWindowsTheme ∧
      (step env s op).sIsHighContrastOn = s.sIsHighContrastOn := by
  cases op with
  | UpdateNativeThemeInfo => exact absurd rfl hop
  | Invalidate => simp [step, Invalidate_eq]
  | GetTheme d => simp [step, GetTheme]

theorem UpdateNativeThemeInfo_flagsAgree (env : Env) (s : nsUXThemeData) :
    flagsAgree (UpdateNativeThemeInfo env s) := by
  simp [flagsAgree, IsDefaultWindowTheme, IsHighContrastOn, UpdateNativeThemeInfo]

theorem step_flagsAgree (env : Env) (s : nsUXThemeData) (op : Op) (hs : flagsAgree s) :
    flagsAgree (step env s op) := by
  by_cases hop : op = Op.UpdateNativeThemeInfo
  · subst hop
    exact UpdateNativeThemeInfo_flagsAgree env s
  · obtain ⟨h1, h2⟩ := step_flags env s op hop
    simp only [flagsAgree, IsDefaultWindowTheme, IsHighContrastOn] at hs ⊢
    rw [h1, h2, hs]

theorem run_flagsAgree (env : Env) (ops : List Op) (s : nsUXThemeData) (hs : flagsAgree s) :
    flagsAgree (run env s ops) := by
  induction ops generalizing s with
  | nil => exact hs
  | cons op ops ih => exact ih _ (step_flagsAgree env s op hs)

theorem run_flagsAgree_of_mem (env : Env) (ops : List Op) (s : nsUXThemeData)
    (hops : Op.UpdateNativeThemeInfo ∈ ops) : flagsAgree (run env s ops) := by
  induction ops generalizing s with
  | nil => exact absurd hops (List.not_mem_nil _)
  | cons op ops ih =>
    rw [run_cons]
    by_cases hop : op = Op.UpdateNativeThemeInfo
    · subst hop
      exact run_flagsAgree env ops _ (UpdateNativeThemeInfo_flagsAgree env s)
    · rcases List.mem_cons.mp hops with h | h
      · exact absurd h.symm hop
      · exact ih _ h

theorem run_flags_of_not_mem (env : Env) (ops : List Op) (s : nsUXThemeData)
    (hops : Op.UpdateNativeThemeInfo ∉ ops) :
    (run env s ops).sIsDefaultWindowsTheme = s.sIsDefaultWindowsTheme ∧
      (run env s ops).sIsHighContrastOn = s.sIsHighContrastOn := by
  induction ops generalizing s with
  | nil => exact ⟨rfl, rfl⟩
  | cons op ops ih =>
    rw [run_cons]
    have hop : op ≠ Op.UpdateNativeThemeInfo := fun e => hops (e ▸ List.mem_cons_self _ _)
    obtain ⟨h1, h2⟩ := step_flags env s op hop
    obtain ⟨h3, h4⟩ := ih (step env s op) (fun hm => hops (List.mem_cons_of_mem _ hm))
    exact ⟨h3.trans h1, h4.trans h2⟩

/-- C7, as stated, fails: in the initial state, and still after a `GetTheme`
and an `Invalidate`, both flags read `false`, so the default-theme flag is not
the negation of the high-contrast flag. -/
theorem C7_initial_flags_counterexample :
    IsDefaultWindowTheme initial = false ∧ IsHighContrastOn initial = false ∧
      IsDefaultWindowTheme (run (queryEnv 1 1) initial []) ≠
        !IsHighContrastOn (run (queryEnv 1 1) initial []) ∧
      IsDefaultWindowTheme
          (run (queryEnv 1 1) initial [Op.GetTheme nsUXThemeClass.eUXButton, Op.Invalidate]) ≠
        !IsHighContrastOn
          (run (queryEnv 1 1) initial [Op.GetTheme nsUXThemeClass.eUXButton, Op.Invalidate]) := by
  refine ⟨rfl, rfl, by decide, ?_⟩
  have h := run_flags_of_not_mem (queryEnv 1 1)
    [Op.GetTheme nsUXThemeClass.eUXButton, Op.Invalidate] initial (by decide)
  simp only [IsDefaultWindowTheme, IsHighContrastOn, h.1, h.2]
  decide

/-- C7, amended: after any sequence of `UpdateNativeThemeInfo`, `GetTheme` and
`Invalidate` calls from the initial state that contains at least one
`UpdateNativeThemeInfo`, `IsDefaultWindowTheme()` is the negation of
`IsHighContrastOn()`; after a sequence that contains none, both read `false`,
their initial values. -/
theorem C7_flags_negated_once_updated (env : Env) (ops : List Op) :
    (Op.UpdateNativeThemeInfo ∈ ops →
        IsDefaultWindowTheme (run env initial ops) = !IsHighContrastOn (run env initial ops)) ∧
      (Op.UpdateNativeThemeInfo ∉ ops →
        IsDefaultWindowTheme (run env initial ops) = false ∧
          IsHighContrastOn (run env initial ops) = false) := by
  constructor
  · intro h
    exact run_flagsAgree_of_mem env ops initial h
  · intro h
    obtain ⟨h1, h2⟩ := run_flags_of_not_mem env ops initial h
    exact ⟨h1, h2⟩

/-- C7 amended, on a sequence with an update in the middle and on one with none. -/
theorem C7_flags_negated_once_updated_witness :
    IsDefaultWindowTheme
          (run (queryEnv 1 1) initial
            [Op.GetTheme nsUXThemeClass.eUXMenu, Op.UpdateNativeThemeInfo, Op.Invalidate]) =
        !IsHighContrastOn
          (run (queryEnv 1 1) initial
            [Op.GetTheme nsUXThemeClass.eUXMenu, Op.UpdateNativeThemeInfo, Op.Invalidate]) ∧
      IsDefaultWindowTheme (run (queryEnv 1 1) initial [Op.Invalidate]) = false ∧
      IsHighContrastOn (run (queryEnv 1 1) initial [Op.Invalidate]) = false :=
  ⟨(C7_flags_negated_once_updated (queryEnv 1 1)
      [Op.GetTheme nsUXThemeClass.eUXMenu, Op.UpdateNativeThemeInfo, Op.Invalidate]).1 (by decide),
    (C7_flags_negated_once_updated (queryEnv 1 1) [Op.Invalidate]).2 (by decide)⟩

theorem ofNat?_eq_none_iff (v : Nat) : nsUXThemeClass.ofNat? v = none ↔ eUXNumClasses ≤ v := by
  rcases Nat.lt_or_ge v 17 with h | h
  · have hv : ¬ eUXNumClasses ≤ v := by simp [eUXNumClasses]; omega
    interval_cases v <;> simp [nsUXThemeClass.ofNat?, hv]
  · obtain ⟨k, rfl⟩ := Nat.exists_eq_add_of_le h
    have : nsUXThemeClass.ofNat? (17 + k) = none := by
      rw [Nat.add_comm]; rfl
    simp [this, eUXNumClasses]

theorem GetClassName_ne_empty (c : nsUXThemeClass) : GetClassName c ≠ "" := by
  cases c <;> decide

/-- C8: `GetClassName` is defined on the whole enumeration and returns a
non-empty name for each of its seventeen values; on an integer passed as the
class, the `switch` agrees with it on the value of each enumerator and returns
the empty string exactly on the integers that are no enumerator (those from
`eUXNumClasses` on), which is the `default` branch. -/
theorem C8_class_names_non_empty (c : nsUXThemeClass) (v : Nat) :
    Fintype.card nsUXThemeClass = 17 ∧
      GetClassName c ≠ "" ∧
      GetClassNameRaw c.toNat = GetClassName c ∧
      (GetClassNameRaw v = "" ↔ nsUXThemeClass.ofNat? v = none) ∧
      (nsUXThemeClass.ofNat? v = none ↔ eUXNumClasses ≤ v) := by
  refine ⟨by decide, GetClassName_ne_empty c, ?_, ?_, ofNat?_eq_none_iff v⟩
  · cases c <;> rfl
  · cases hv : nsUXThemeClass.ofNat? v with
    | none => simp [GetClassNameRaw, hv]
    | some d => simp [GetClassNameRaw, hv, GetClassName_ne_empty d]

/-! ## Handles opened, closed and held -/

/-- Counting over a table in which one entry was replaced. -/
theorem countP_update {α β : Type} [DecidableEq α] (p : β → Bool) (f : α → β) (d : α) (t : β)
    (l : List α) (hl : l.Nodup) :
    l.countP (fun c => p (Function.update f d t c)) + (if d ∈ l ∧ p (f d) = true then 1 else 0) =
      l.countP (fun c => p (f c)) + (if d ∈ l ∧ p t = true then 1 else 0) := by
  induction l with
  | nil => simp
  | cons a l ih =>
    have hnd := List.nodup_cons.mp hl
    have ih2 := ih hnd.2
    by_cases had : a = d
    · subst had
      have hnot : a ∉ l := hnd.1
      simp only [hnot, false_and, if_false, Nat.add_zero] at ih2
      simp only [List.countP_cons, Function.update_same, List.mem_cons, true_or, true_and, ih2]
      omega
    · have hda : d ≠ a := fun e => had e.symm
      simp only [List.countP_cons, Function.update_noteq had, List.mem_cons, hda, false_or]
      omega

theorem heldBy_update (s : nsUXThemeData) (d : nsUXThemeClass) (t : ThemeHandle)
    (calls : List ApiCall) (h : HANDLE) :
    heldBy h { s with sThemes := Function.update s.sThemes d t, calls := calls } +
        (if (s.sThemes d).mHandle = some h then 1 else 0) =
      heldBy h s + (if t.mHandle = some h then 1 else 0) := by
  have := countP_update (fun x : ThemeHandle => x.mHandle == some h) s.sThemes d t
    nsUXThemeClass.all nodup_all
  simpa [heldBy, mem_all] using this

theorem opensReturning_append (h : HANDLE) (l₁ l₂ : List ApiCall) :
    opensReturning h (l₁ ++ l₂) = opensReturning h l₁ + opensReturning h l₂ := by
  simp [opensReturning, List.countP_append]

theorem closesOf_append (h : HANDLE) (l₁ l₂ : List ApiCall) :
    closesOf h (l₁ ++ l₂) = closesOf h l₁ + closesOf h l₂ := by
  simp [closesOf, List.count_append]

theorem closesOf_close (h k : HANDLE) :
    closesOf h [ApiCall.CloseThemeData k] = if k = h then 1 else 0 := by
  by_cases hk : k = h
  · simp [closesOf, hk]
  · have hk2 : ¬ h = k := fun e => hk e.symm
    simp [closesOf, hk, hk2, List.count_cons]

theorem closesOf_open (h : HANDLE) (w : HWND) (name : String) (r : HANDLE) :
    closesOf h [ApiCall.OpenThemeData w name r] = 0 := by
  simp [closesOf]

theorem closesOf_query (h : HANDLE) (ret : BOOL) (f : DWORD) :
    closesOf h [ApiCall.SystemParametersInfo ret f] = 0 := by
  simp [closesOf]

theorem opensReturning_open (h : HANDLE) (w : HWND) (name : String) (r : HANDLE) :
    opensReturning h [ApiCall.OpenThemeData w name r] = if r = h then 1 else 0 := by
  by_cases hr : r = h <;> simp [opensReturning, hr]

theorem opensReturning_close (h k : HANDLE) :
    opensReturning h [ApiCall.CloseThemeData k] = 0 := by
  simp [opensReturning]

theorem opensReturning_query (h : HANDLE) (ret : BOOL) (f : DWORD) :
    opensReturning h [ApiCall.SystemParametersInfo ret f] = 0 := by
  simp [opensReturning]

theorem neverOverClosed_concat (calls : List ApiCall) (e : ApiCall)
    (hc : neverOverClosed calls)
    (he : ∀ h, closesOf h (calls ++ [e]) ≤ opensReturning h (calls ++ [e])) :
    neverOverClosed (calls ++ [e]) := by
  intro p h hp
  rcases List.prefix_concat_iff.mp hp with rfl | hp2
  · exact he h
  · exact hc p h hp2

theorem balanced_initial : balanced initial := by
  refine ⟨fun h _ => ?_, rfl, ?_⟩
  · simp [initial, opensReturning, closesOf, heldBy]
  · intro p h hp
    have : p = [] := List.prefix_nil.mp hp
    subst this
    simp [closesOf, opensReturning]

/-- A balanced history plus one event that keeps the counts in order. -/
theorem balanced_concat (s s2 : nsUXThemeData) (e : ApiCall) (hs : balanced s)
    (hcalls : s2.calls = s.calls ++ [e])
    (hbal : ∀ h, h ≠ nullptr →
      opensReturning h (s.calls ++ [e]) = closesOf h (s.calls ++ [e]) + heldBy h s2)
    (hnull : closesOf nullptr (s.calls ++ [e]) = 0) : balanced s2 := by
  refine ⟨fun h hh => by rw [hcalls]; exact hbal h hh, by rw [hcalls]; exact hnull, ?_⟩
  rw [hcalls]
  refine neverOverClosed_concat _ _ hs.2.2 (fun h => ?_)
  by_cases hh : h = nullptr
  · subst hh
    rw [hnull]
    exact Nat.zero_le _
  · rw [hbal h hh]
    exact Nat.le_add_right _ _

theorem balanced_GetTheme (env : Env) (s : nsUXThemeData) (d : nsUXThemeClass)
    (hs : balanced s) : balanced (GetTheme env s d).2 := by
  cases hd : (s.sThemes d).mHandle with
  | some k => rw [GetTheme_of_some env s d k hd]; exact hs
  | none =>
    rw [GetTheme_of_none env s d hd]
    refine balanced_concat s _ _ hs rfl (fun h hh => ?_) ?_
    · have hu := heldBy_update s d
        { mHandle := some (env.OpenThemeData s.calls nullptr (GetClassName d)) }
        (s.calls ++ [ApiCall.OpenThemeData nullptr (GetClassName d)
          (env.OpenThemeData s.calls nullptr (GetClassName d))]) h
      simp only [hd, Option.some.injEq] at hu
      have hb := hs.1 h hh
      rw [opensReturning_append, closesOf_append, hb, opensReturning_open, closesOf_open]
      by_cases hk : env.OpenThemeData s.calls nullptr (GetClassName d) = h
      · simp only [hk, if_true] at hu ⊢
        simp at hu
        omega
      · simp only [hk, if_false] at hu ⊢
        simp at hu
        omega
    · rw [closesOf_append, hs.2.1, closesOf_open]

theorem balanced_closeSlot (s : nsUXThemeData) (c : nsUXThemeClass) (hs : balanced s) :
    balanced (closeSlot s c) := by
  rw [closeSlot_eq]
  cases hc : (s.sThemes c).mHandle with
  | none =>
    have hcc : closeCalls (s.sThemes c) = [] := by simp [closeCalls, hc]
    rw [hcc, List.append_nil]
    refine ⟨fun h hh => ?_, hs.2.1, hs.2.2⟩
    have hu := heldBy_update s c { mHandle := none } s.calls h
    simp only [hc] at hu
    have hb := hs.1 h hh
    simp at hu
    simp only [hb, hu]
  | some k =>
    by_cases hk : k = nullptr
    · have hcc : closeCalls (s.sThemes c) = [] := by simp [closeCalls, hc, hk]
      rw [hcc, List.append_nil]
      refine ⟨fun h hh => ?_, hs.2.1, hs.2.2⟩
      have hu := heldBy_update s c { mHandle := none } s.calls h
      have hkh : ¬ k = h := fun e => hh (e ▸ hk)
      simp [hc, hkh] at hu
      have hb := hs.1 h hh
      simp only [hb, hu]
    · have hcc : closeCalls (s.sThemes c) = [ApiCall.CloseThemeData k] := by
        simp [closeCalls, hc, hk]
      rw [hcc]
      refine balanced_concat s _ _ hs rfl (fun h hh => ?_) ?_
      · have hu := heldBy_update s c { mHandle := none }
          (s.calls ++ [ApiCall.CloseThemeData k]) h
        have hb := hs.1 h hh
        rw [opensReturning_append, closesOf_append, hb, opensReturning_close, closesOf_close]
        simp only [hc, Option.some.injEq] at hu
        by_cases hkh : k = h
        · simp only [hkh, if_true] at hu ⊢
          simp at hu
          omega
        · simp only [hkh, if_false] at hu ⊢
          simp at hu
          omega
      · rw [closesOf_append, hs.2.1, closesOf_close]
        simp [hk]

theorem balanced_Invalidate (s : nsUXThemeData) (hs : balanced s) : balanced (Invalidate s) := by
  unfold Invalidate
  generalize nsUXThemeClass.all = l
  induction l generalizing s with
  | nil => exact hs
  | cons a l ih => exact ih _ (balanced_closeSlot s a hs)

theorem balanced_UpdateNativeThemeInfo (env : Env) (s : nsUXThemeData) (hs : balanced s) :
    balanced (UpdateNativeThemeInfo env s) := by
  refine balanced_concat s _ _ hs rfl (fun h hh => ?_) ?_
  · rw [opensReturning_append, closesOf_append, hs.1 h hh, opensReturning_query, closesOf_query]
    simp [heldBy, UpdateNativeThemeInfo]
  · rw [closesOf_append, hs.2.1, closesOf_query]

theorem balanced_run (env : Env) (ops : List Op) (s : nsUXThemeData) (hs : balanced s) :
    balanced (run env s ops) := by
  induction ops generalizing s with
  | nil => exact hs
  | cons op ops ih =>
    rw [run_cons]
    apply ih
    cases op with
    | GetTheme d => exact balanced_GetTheme env s d hs
    | Invalidate => exact balanced_Invalidate s hs
    | UpdateNativeThemeInfo => exact balanced_UpdateNativeThemeInfo env s hs

theorem heldBy_Invalidate (s : nsUXThemeData) (h : HANDLE) : heldBy h (Invalidate s) = 0 := by
  rw [Invalidate_eq]
  simp [heldBy]

theorem run_concat_Invalidate (env : Env) (s : nsUXThemeData) (ops : List Op) :
    run env s (ops ++ [Op.Invalidate]) = Invalidate (run env s ops) := by
  simp [run, step, List.foldl_append]

theorem closesOf_closeCalls (h : HANDLE) (hh : h ≠ nullptr) (t : ThemeHandle) :
    closesOf h (closeCalls t) = if t.mHandle = some h then 1 else 0 := by
  cases t with
  | mk m =>
    cases m with
    | none => simp [closeCalls, closesOf]
    | some k =>
      by_cases hk : k = nullptr
      · have hkh : ¬ nullptr = h := fun e => hh e.symm
        simp [closeCalls, closesOf, hk, hkh]
      · have hcc : closeCalls { mHandle := some k } = [ApiCall.CloseThemeData k] := by
          simp [closeCalls, hk]
        rw [hcc, closesOf_close]
        simp

theorem closesOf_flatten_closeCalls (h : HANDLE) (hh : h ≠ nullptr)
    (f : nsUXThemeClass → ThemeHandle) (l : List nsUXThemeClass) :
    closesOf h (l.map fun c => closeCalls (f c)).flatten =
      l.countP fun c => (f c).mHandle == some h := by
  induction l with
  | nil => simp [closesOf]
  | cons a l ih =>
    simp only [List.map_cons, List.flatten_cons, closesOf_append, ih,
      closesOf_closeCalls h hh, List.countP_cons, beq_iff_eq]
    exact Nat.add_comm _ _

/-- What `Invalidate` adds to the closes of a non-null handle: one call for
each slot that holds it. -/
theorem Invalidate_closesOf (s : nsUXThemeData) (h : HANDLE) (hh : h ≠ nullptr) :
    closesOf h (Invalidate s).calls = closesOf h s.calls + heldBy h s := by
  rw [Invalidate_eq]
  simp only [closesOf_append, closesOf_flatten_closeCalls h hh, heldBy]

/-- No call into the module drops a call from the history. -/
theorem step_calls_extend (env : Env) (s : nsUXThemeData) (op : Op) :
    s.calls <+: (step env s op).calls := by
  cases op with
  | GetTheme d =>
    simp only [step]
    cases hd : (s.sThemes d).mHandle with
    | some k => rw [GetTheme_of_some env s d k hd]
    | none => rw [GetTheme_of_none env s d hd]; exact List.prefix_append _ _
  | Invalidate =>
    simp only [step, Invalidate_eq]
    exact List.prefix_append _ _
  | UpdateNativeThemeInfo =>
    simp only [step, UpdateNativeThemeInfo]
    exact List.prefix_append _ _

theorem run_calls_extend (env : Env) (ops : List Op) (s : nsUXThemeData) :
    s.calls <+: (run env s ops).calls := by
  induction ops generalizing s with
  | nil => exact List.prefix_refl _
  | cons op ops ih =>
    rw [run_cons]
    exact List.IsPrefix.trans (step_calls_extend env s op) (ih _)

/-- C5: along every sequence of calls from the initial all-empty table that
ends with an `Invalidate`, every non-null handle is passed to `CloseThemeData`
exactly as many times as `OpenThemeData` returned it, so each handle that was
returned is released once and none is left open; and at no point of any
sequence is `CloseThemeData` called on the null handle or on a handle that is
not outstanding (returned more often than closed so far, hence still held by
a slot).  The history these counts are taken over is the whole of it: no
call, from any state, drops an earlier call, whatever calls follow.  And the
releases are made: from any state, `Invalidate` appends to the history the
call `CloseThemeData(h)` of each slot that holds a non-null `h`, in slot
order, and nothing else, which closes every non-null handle once for each
slot that holds it and leaves every slot empty; an open made by `GetTheme` on
an empty slot is the last call of the history and its answer is what the slot
then holds. -/
theorem C5_no_leak_no_double_release (env : Env) (ops : List Op) :
    (∀ h, h ≠ nullptr →
        closesOf h (run env initial (ops ++ [Op.Invalidate])).calls =
          opensReturning h (run env initial (ops ++ [Op.Invalidate])).calls) ∧
      (∀ h, h ≠ nullptr →
        opensReturning h (run env initial ops).calls =
          closesOf h (run env initial ops).calls + heldBy h (run env initial ops)) ∧
      (∀ p h, p ++ [ApiCall.CloseThemeData h] <+: (run env initial ops).calls →
        h ≠ nullptr ∧ closesOf h p < opensReturning h p) ∧
      (∀ (s : nsUXThemeData) (op : Op) (more : List Op),
        s.calls <+: (step env s op).calls ∧ s.calls <+: (run env s more).calls) ∧
      (∀ s : nsUXThemeData,
        (Invalidate s).calls =
            s.calls ++ (nsUXThemeClass.all.map fun c => closeCalls (s.sThemes c)).flatten ∧
          (∀ c, ((Invalidate s).sThemes c).mHandle = none) ∧
          (∀ h, h ≠ nullptr →
            closesOf h (Invalidate s).calls = closesOf h s.calls + heldBy h s ∧
              opensReturning h (Invalidate s).calls = opensReturning h s.calls ∧
              heldBy h (Invalidate s) = 0)) ∧
      (∀ (s : nsUXThemeData) (c : nsUXThemeClass), (s.sThemes c).mHandle = none →
        (GetTheme env s c).2.calls =
            s.calls ++ [ApiCall.OpenThemeData nullptr (GetClassName c) (GetTheme env s c).1] ∧
          ((GetTheme env s c).2.sThemes c).mHandle = some (GetTheme env s c).1) := by
  refine ⟨fun h hh => ?_, fun h hh => ?_, fun p h hp => ?_, fun s op more => ?_,
    fun s => ⟨?_, Invalidate_sThemes s, fun h hh => ⟨Invalidate_closesOf s h hh, ?_,
      heldBy_Invalidate s h⟩⟩, fun s c hc => ?_⟩
  · have hb := balanced_run env (ops ++ [Op.Invalidate]) initial balanced_initial
    have h1 := hb.1 h hh
    have h0 : heldBy h (run env initial (ops ++ [Op.Invalidate])) = 0 := by
      rw [run_concat_Invalidate, heldBy_Invalidate]
    omega
  · exact (balanced_run env ops initial balanced_initial).1 h hh
  · have hb := balanced_run env ops initial balanced_initial
    have hle := hb.2.2 _ h hp
    rw [closesOf_append, opensReturning_append, closesOf_close, opensReturning_close] at hle
    simp only [if_true] at hle
    refine ⟨fun hh => ?_, by omega⟩
    subst hh
    have hsub := (List.IsPrefix.sublist hp).count_le (ApiCall.CloseThemeData nullptr)
    have hz := hb.2.1
    unfold closesOf at hz
    rw [hz] at hsub
    simp at hsub
  · exact ⟨step_calls_extend env s op, run_calls_extend env more s⟩
  · rw [Invalidate_eq]
  · rw [Invalidate_eq]
    simp only [opensReturning_append, Nat.add_right_eq_self]
    generalize nsUXThemeClass.all = l
    induction l with
    | nil => simp [opensReturning]
    | cons a l ih =>
      simp only [List.map_cons, List.flatten_cons, opensReturning_append, ih, Nat.add_zero]
      cases ha : (s.sThemes a).mHandle with
      | none => simp [closeCalls, ha, opensReturning]
      | some k => by_cases hk : k = nullptr <;> simp [closeCalls, ha, hk, opensReturning]
  · rw [GetTheme_of_none env s c hc]
    simp

/-- C5 on a run that opens the button and tab classes (handles `5` and `6`)
and then invalidates: handle `5` is closed as often as it was returned, its
close comes when it is outstanding, and the button slot, empty at first,
holds after `GetTheme` the handle of the open that was logged. -/
theorem C5_no_leak_no_double_release_witness :
    closesOf 5
        (run (countingEnv 5 0) initial
          ([Op.GetTheme nsUXThemeClass.eUXButton, Op.GetTheme nsUXThemeClass.eUXTab] ++
            [Op.Invalidate])).calls =
      opensReturning 5
        (run (countingEnv 5 0) initial
          ([Op.GetTheme nsUXThemeClass.eUXButton, Op.GetTheme nsUXThemeClass.eUXTab] ++
            [Op.Invalidate])).calls ∧
      (5 ≠ nullptr ∧
        closesOf 5 [ApiCall.OpenThemeData 0 "Button" 5, ApiCall.OpenThemeData 0 "Tab" 6] <
          opensReturning 5 [ApiCall.OpenThemeData 0 "Button" 5, ApiCall.OpenThemeData 0 "Tab" 6]) ∧
      ((GetTheme (countingEnv 5 0) initial nsUXThemeClass.eUXButton).2.sThemes
        nsUXThemeClass.eUXButton).mHandle =
          some (GetTheme (countingEnv 5 0) initial nsUXThemeClass.eUXButton).1 :=
  ⟨(C5_no_leak_no_double_release (countingEnv 5 0)
      [Op.GetTheme nsUXThemeClass.eUXButton, Op.GetTheme nsUXThemeClass.eUXTab]).1 5 (by decide),
    (C5_no_leak_no_double_release (countingEnv 5 0)
      [Op.GetTheme nsUXThemeClass.eUXButton, Op.GetTheme nsUXThemeClass.eUXTab,
        Op.Invalidate]).2.2.1
      [ApiCall.OpenThemeData 0 "Button" 5, ApiCall.OpenThemeData 0 "Tab" 6] 5
      ⟨[ApiCall.CloseThemeData 6], by decide⟩,
    ((C5_no_leak_no_double_release (countingEnv 5 0) []).2.2.2.2.2 initial
      nsUXThemeClass.eUXButton rfl).2⟩

end nsUXThemeData

/-! ## What `GetTheme` leaves alone, and the class names -/

namespace nsUXThemeData

/-- C11: from every state, `GetTheme(c)` changes at most slot `c`: every other
slot holds the same optional handle as before; the call history is either
unchanged or longer by the one call `OpenThemeData(nullptr, GetClassName(c))`,
so no open is made under the name of another class and no `CloseThemeData` is
made at all; and both accessibility flags read as before. -/
theorem C11_get_theme_changes_only_its_slot (env : Env) (s : nsUXThemeData)
    (c : nsUXThemeClass) :
    (∀ d, d ≠ c → (GetTheme env s c).2.sThemes d = s.sThemes d) ∧
      ((GetTheme env s c).2.calls = s.calls ∨
        ∃ h, (GetTheme env s c).2.calls =
          s.calls ++ [ApiCall.OpenThemeData nullptr (GetClassName c) h]) ∧
      (∀ d, d ≠ c → opensFor d (GetTheme env s c).2.calls = opensFor d s.calls) ∧
      (∀ h, closesOf h (GetTheme env s c).2.calls = closesOf h s.calls) ∧
      IsHighContrastOn (GetTheme env s c).2 = IsHighContrastOn s ∧
      IsDefaultWindowTheme (GetTheme env s c).2 = IsDefaultWindowTheme s := by
  refine ⟨fun d hd => ?_, ?_, fun d hd => ?_, fun h => ?_, ?_, ?_⟩
  · cases hc : (s.sThemes c).mHandle with
    | some k => rw [GetTheme_of_some env s c k hc]
    | none =>
      rw [GetTheme_of_none env s c hc]
      exact Function.update_noteq hd _ _
  · cases hc : (s.sThemes c).mHandle with
    | some k => rw [GetTheme_of_some env s c k hc]; exact Or.inl rfl
    | none =>
      rw [GetTheme_of_none env s c hc]
      exact Or.inr ⟨_, rfl⟩
  · have h := (GetTheme_opensFor env s d c).1
    have hcd : c ≠ d := fun e => hd e.symm
    simpa [hcd] using h
  · cases hc : (s.sThemes c).mHandle with
    | some k => rw [GetTheme_of_some env s c k hc]
    | none =>
      rw [GetTheme_of_none env s c hc]
      simp only [closesOf_append, closesOf_open, Nat.add_zero]
  · simp [IsHighContrastOn, GetTheme]
  · simp [IsDefaultWindowTheme, GetTheme]

/-- C11 on a table that holds handle `5` for the button class, with both
flags set: `GetTheme(Tab)` leaves the button slot, the opens made for the
button class and the flags as they were. -/
theorem C11_get_theme_changes_only_its_slot_witness :
    nsUXThemeClass.eUXButton ≠ nsUXThemeClass.eUXTab ∧
      (GetTheme (countingEnv 5 0)
          (GetTheme (countingEnv 5 0) bothSet nsUXThemeClass.eUXButton).2
          nsUXThemeClass.eUXTab).2.sThemes nsUXThemeClass.eUXButton =
        (GetTheme (countingEnv 5 0) bothSet nsUXThemeClass.eUXButton).2.sThemes
          nsUXThemeClass.eUXButton ∧
      opensFor nsUXThemeClass.eUXButton
          (GetTheme (countingEnv 5 0)
            (GetTheme (countingEnv 5 0) bothSet nsUXThemeClass.eUXButton).2
            nsUXThemeClass.eUXTab).2.calls =
        opensFor nsUXThemeClass.eUXButton
          (GetTheme (countingEnv 5 0) bothSet nsUXThemeClass.eUXButton).2.calls :=
  have h := C11_get_theme_changes_only_its_slot (countingEnv 5 0)
    (GetTheme (countingEnv 5 0) bothSet nsUXThemeClass.eUXButton).2 nsUXThemeClass.eUXTab
  ⟨by decide, h.1 nsUXThemeClass.eUXButton (by decide),
    h.2.2.1 nsUXThemeClass.eUXButton (by decide)⟩

theorem mem_closeCalls (t : ThemeHandle) (e : ApiCall) (he : e ∈ closeCalls t) :
    ∃ h, e = ApiCall.CloseThemeData h := by
  cases t with
  | mk m =>
    cases m with
    | none => simp [closeCalls] at he
    | some k =>
      by_cases hk : k = nullptr
      · simp [closeCalls, hk] at he
      · simp [closeCalls, hk] at he
        exact ⟨k, he⟩

/-- A call into the module only ever opens under the name of a control class. -/
theorem step_open_names (env : Env) (s : nsUXThemeData) (op : Op)
    (hs : ∀ w n r, ApiCall.OpenThemeData w n r ∈ s.calls → ∃ c, n = GetClassName c) :
    ∀ w n r, ApiCall.OpenThemeData w n r ∈ (step env s op).calls → ∃ c, n = GetClassName c := by
  intro w n r hmem
  cases op with
  | GetTheme d =>
    simp only [step] at hmem
    cases hd : (s.sThemes d).mHandle with
    | some k =>
      rw [GetTheme_of_some env s d k hd] at hmem
      exact hs w n r hmem
    | none =>
      rw [GetTheme_of_none env s d hd] at hmem
      rcases List.mem_append.mp hmem with h | h
      · exact hs w n r h
      · simp only [List.mem_singleton, ApiCall.OpenThemeData.injEq] at h
        exact ⟨d, h.2.1⟩
  | Invalidate =>
    simp only [step, Invalidate_eq] at hmem
    rcases List.mem_append.mp hmem with h | h
    · exact hs w n r h
    · obtain ⟨l, hl, hel⟩ := List.mem_flatten.mp h
      obtain ⟨d, _, rfl⟩ := List.mem_map.mp hl
      obtain ⟨k, hk⟩ := mem_closeCalls _ _ hel
      exact ApiCall.noConfusion hk
  | UpdateNativeThemeInfo =>
    simp only [step, UpdateNativeThemeInfo] at hmem
    rcases List.mem_append.mp hmem with h | h
    · exact hs w n r h
    · simp at h

theorem run_open_names (env : Env) (ops : List Op) (s : nsUXThemeData)
    (hs : ∀ w n r, ApiCall.OpenThemeData w n r ∈ s.calls → ∃ c, n = GetClassName c) :
    ∀ w n r, ApiCall.OpenThemeData w n r ∈ (run env s ops).calls → ∃ c, n = GetClassName c := by
  induction ops generalizing s with
  | nil => exact hs
  | cons op ops ih =>
    rw [run_cons]
    exact ih _ (step_open_names env s op hs)

/-- A call that takes slot `c` from empty to holding `h` is `GetTheme(c)`, and
what it adds to the history is the one call
`OpenThemeData(nullptr, GetClassName(c))` that answered `h`. -/
theorem step_opens_slot (env : Env) (s : nsUXThemeData) (op : Op) (c : nsUXThemeClass)
    (h : HANDLE) (hs : (s.sThemes c).mHandle = none)
    (hs2 : ((step env s op).sThemes c).mHandle = some h) :
    op = Op.GetTheme c ∧
      (step env s op).calls = s.calls ++ [ApiCall.OpenThemeData nullptr (GetClassName c) h] := by
  cases op with
  | Invalidate =>
    simp only [step, Invalidate_sThemes] at hs2
    exact Option.noConfusion hs2
  | UpdateNativeThemeInfo =>
    simp only [step, UpdateNativeThemeInfo, hs] at hs2
    exact Option.noConfusion hs2
  | GetTheme d =>
    simp only [step] at hs2 ⊢
    by_cases hdc : d = c
    · subst hdc
      rw [GetTheme_of_none env s d hs] at hs2 ⊢
      simp only [Function.update_same, Option.some.injEq] at hs2
      rw [hs2]
      exact ⟨rfl, rfl⟩
    · have hcd : c ≠ d := fun e => hdc e.symm
      cases hd : (s.sThemes d).mHandle with
      | some k =>
        rw [GetTheme_of_some env s d k hd, hs] at hs2
        exact Option.noConfusion hs2
      | none =>
        rw [GetTheme_of_none env s d hd] at hs2
        simp only [Function.update_noteq hcd, hs] at hs2
        exact Option.noConfusion hs2

/-- C12: `GetClassName` is injective on the seventeen control classes: two
distinct classes have distinct class names.  Hence no two slots of the table
are ever opened under the same name: a call that takes slot `c` from empty to
holding a handle is `GetTheme(c)` and adds to the history exactly the call
`OpenThemeData(nullptr, GetClassName(c))` that answered this handle, so two
calls that open two distinct slots, from whatever states, add opens under two
different names; and along every run from the initial table each
`OpenThemeData` call carries the name of exactly one control class. -/
theorem C12_class_names_injective :
    Function.Injective GetClassName ∧
      (∀ c d : nsUXThemeClass, c ≠ d → GetClassName c ≠ GetClassName d) ∧
      (∀ (env : Env) (ops : List Op) (w : HWND) (n : String) (r : HANDLE),
        ApiCall.OpenThemeData w n r ∈ (run env initial ops).calls →
          ∃! c, n = GetClassName c) ∧
      (∀ (env : Env) (s : nsUXThemeData) (op : Op) (c : nsUXThemeClass) (h : HANDLE),
        (s.sThemes c).mHandle = none → ((step env s op).sThemes c).mHandle = some h →
          op = Op.GetTheme c ∧
            (step env s op).calls =
              s.calls ++ [ApiCall.OpenThemeData nullptr (GetClassName c) h]) ∧
      (∀ (env : Env) (s₁ s₂ : nsUXThemeData) (op₁ op₂ : Op) (c d : nsUXThemeClass)
          (h₁ h₂ : HANDLE),
        c ≠ d →
          (s₁.sThemes c).mHandle = none → ((step env s₁ op₁).sThemes c).mHandle = some h₁ →
          (s₂.sThemes d).mHandle = none → ((step env s₂ op₂).sThemes d).mHandle = some h₂ →
          ∃ n₁ n₂,
            (step env s₁ op₁).calls = s₁.calls ++ [ApiCall.OpenThemeData nullptr n₁ h₁] ∧
              (step env s₂ op₂).calls = s₂.calls ++ [ApiCall.OpenThemeData nullptr n₂ h₂] ∧
              n₁ ≠ n₂) := by
  refine ⟨fun c d h => GetClassName_inj c d h, fun c d hcd h => hcd (GetClassName_inj c d h),
    ?_, fun env s op c h hs hs2 => step_opens_slot env s op c h hs hs2, ?_⟩
  · intro env ops w n r hmem
    have hinit : ∀ w n r, ApiCall.OpenThemeData w n r ∈ initial.calls →
        ∃ c, n = GetClassName c := by
      intro w n r h
      simp [initial] at h
    obtain ⟨c, hc⟩ := run_open_names env ops initial hinit w n r hmem
    refine ⟨c, hc, fun d hd => ?_⟩
    exact GetClassName_inj d c (hd.symm.trans hc)
  · intro env s₁ s₂ op₁ op₂ c d h₁ h₂ hcd hc1 hc2 hd1 hd2
    exact ⟨GetClassName c, GetClassName d, (step_opens_slot env s₁ op₁ c h₁ hc1 hc2).2,
      (step_opens_slot env s₂ op₂ d h₂ hd1 hd2).2, fun e => hcd (GetClassName_inj c d e)⟩

/-- C12 on the rebar classes, whose names share a suffix, on a run that opens
the button class, and on the call that opens the tab slot after the button
slot. -/
theorem C12_class_names_injective_witness :
    GetClassName nsUXThemeClass.eUXRebar ≠ GetClassName nsUXThemeClass.eUXMediaRebar ∧
      (∃! c, "Button" = GetClassName c) ∧
      (step (countingEnv 5 0) (GetTheme (countingEnv 5 0) initial nsUXThemeClass.eUXButton).2
          (Op.GetTheme nsUXThemeClass.eUXTab)).calls =
        (GetTheme (countingEnv 5 0) initial nsUXThemeClass.eUXButton).2.calls ++
          [ApiCall.OpenThemeData nullptr "Tab" 6] :=
  ⟨C12_class_names_injective.2.1 nsUXThemeClass.eUXRebar nsUXThemeClass.eUXMediaRebar
      (by decide),
    C12_class_names_injective.2.2.1 (countingEnv 5 0) [Op.GetTheme nsUXThemeClass.eUXButton]
      0 "Button" 5 (by decide),
    (C12_class_names_injective.2.2.2.1 (countingEnv 5 0)
      (GetTheme (countingEnv 5 0) initial nsUXThemeClass.eUXButton).2
      (Op.GetTheme nsUXThemeClass.eUXTab) nsUXThemeClass.eUXTab 6 (by decide) (by decide)).2⟩

end nsUXThemeData
